import Mathlib

/-!
Verification of the room-registry synchronization engine of the
Renomate-Kostnadskalkyl spreadsheet scripts (src/scripts.ts).

The source is Google Apps Script TypeScript.  The embedding below models:
  * JavaScript strings as Lean `String` (with `strTrim` modelling
    `String.prototype.trim` over the character list),
  * rich-text cells as `RichTextValue` (visible text plus optional link),
  * the dashboard's first column as a `List` indexed by 1-based row
    (row r is list index r - 1),
  * the whole spreadsheet surface touched by the lifecycle operations as
    `SpreadsheetModel`,
  * the interactive prompt loop by a list of scripted operator responses
    (an exhausted response list is treated like a cancel, since the real
    loop would still be blocked waiting for the operator).
-/

/-- JavaScript-style whitespace test for `trim` (the characters that occur
in practice: space, tab, newline, carriage return). -/
def isWhitespaceChar (c : Char) : Bool :=
  c = ' ' || c = '\t' || c = '\n' || c = '\r'

/-- JavaScript `String.prototype.trim`: strip leading and trailing whitespace. -/
def trimChars (cs : List Char) : List Char :=
  ((cs.dropWhile isWhitespaceChar).reverse.dropWhile isWhitespaceChar).reverse

/-- The `s.trim()` call from the source, modelled over the character list. -/
def strTrim (s : String) : String :=
  ⟨trimChars s.data⟩

/-- JavaScript `array.join(sep)`. -/
def joinSep (sep : String) : List String → String
  | [] => ""
  | [x] => x
  | x :: rest => x ++ sep ++ joinSep sep rest

/-- Concatenation of a list of strings (used to describe the accumulated
error text of the validator). -/
def concatMessages : List String → String
  | [] => ""
  | m :: rest => m ++ concatMessages rest

-- ############################################################################
-- RangeGrouper: groupAdjacentNumbers (src/scripts.ts lines 240-247)
-- ############################################################################

/-- The `groups[groups.length - 1][1] += 1` statement from the source: increment the count
of the last group.  (The source only ever executes this when the group list
is non-empty; on `[]` we return `[]`.) -/
def bumpLast : List (Int × Nat) → List (Int × Nat)
  | [] => []
  | [g] => [(g.1, g.2 + 1)]
  | g :: g2 :: rest => g :: bumpLast (g2 :: rest)

/-- The `for` loop of `groupAdjacentNumbers`: `prev?` is `numbers[i-1]`
(`none` at `i = 0`).  `if (i === 0 || numbers[i] !== numbers[i-1] + 1)
groups.push([numbers[i], 1]); else groups[groups.length-1][1] += 1`. -/
def groupLoop : List (Int × Nat) → Option Int → List Int → List (Int × Nat)
  | groups, _, [] => groups
  | groups, none, n :: rest => groupLoop (groups ++ [(n, 1)]) (some n) rest
  | groups, some p, n :: rest =>
    if n = p + 1 then groupLoop (bumpLast groups) (some n) rest
    else groupLoop (groups ++ [(n, 1)]) (some n) rest

/-- Function `groupAdjacentNumbers` from src/scripts.ts: group adjacent numbers into
`(start, count)` ranges, then `.reverse()`. -/
def groupAdjacentNumbers (numbers : List Int) : List (Int × Nat) :=
  (groupLoop [] none numbers).reverse

/-- The run `[start, start + count)` denoted by a group. -/
def expandGroup (g : Int × Nat) : List Int :=
  (List.range g.2).map (fun (j : Nat) => g.1 + (j : Int))

-- ############################################################################
-- Rich text cells and the dashboard band (renameInDashboard, lines 177-194)
-- ############################################################################

/-- A rich-text cell value: visible text plus an optional link target. -/
structure RichTextValue where
  text : String
  linkUrl : Option String
deriving DecidableEq, Repr

/-- The per-cell transformation inside `renameInDashboard`:
a `null` cell becomes an empty rich-text value; a cell whose text is not a
key of the rename map passes through; otherwise a new value is built with
the mapped text and the original link target. -/
def renameRichText (renameMap : List (String × String)) (room : Option RichTextValue) :
    RichTextValue :=
  match room with
  | none => { text := "", linkUrl := none }
  | some room =>
    match renameMap.lookup room.text with
    | none => room
    | some newName => { text := newName, linkUrl := room.linkUrl }

/-- Function `renameInDashboard` from src/scripts.ts: read the band of rows strictly
between the material row and the sum row (1-based rows `materialRow + 1`
through `sumRow - 1`, i.e. list indices `materialRow` through `sumRow - 2`),
rewrite each cell with `renameRichText`, and write the band back. -/
def renameInDashboard (renameMap : List (String × String)) (materialRow sumRow : Nat)
    (firstCol : List (Option RichTextValue)) : List (Option RichTextValue) :=
  let numRows := sumRow - materialRow - 1
  let roomsRange := (firstCol.drop materialRow).take numRows
  let newRichText := roomsRange.map (fun room => some (renameRichText renameMap room))
  firstCol.take materialRow ++ newRichText ++ firstCol.drop (materialRow + numRows)

-- ############################################################################
-- deleteInDashboard (src/scripts.ts lines 253-261)
-- ############################################################################

/-- The `firstColumnValues.findIndex(([row]) => row === roomName) + 1` lookup:
the 1-based row of the first match in the first column, or `0` (= -1 + 1)
when the name does not occur. -/
def findRowIndex (firstColumnValues : List String) (roomName : String) : Int :=
  (((firstColumnValues.findIdx? (fun v => v = roomName)).map
      (fun i => (i : Int))).getD (-1)) + 1

/-- The `deleteIndexes` computed by `deleteInDashboard`: first-match rows of
the selected names, in selection order, with misses (`0`) filtered out.
The source neither deduplicates nor sorts this list. -/
def deleteIndexes (firstColumnValues roomNames : List String) : List Int :=
  (roomNames.map (findRowIndex firstColumnValues)).filter (fun i => i ≠ 0)

/-- The `(position, numRows)` deletion groups issued by `deleteInDashboard`,
in issue order. -/
def deleteGroups (firstColumnValues roomNames : List String) : List (Int × Nat) :=
  groupAdjacentNumbers (deleteIndexes firstColumnValues roomNames)

/-- Modelled from the spec: the "deduplicates and sorts resulting positions
ascending" preprocessing step the spec describes for the deletion pipeline
(the source has no such step). -/
def dedupSortAscending (positions : List Int) : List Int :=
  (positions.dedup).insertionSort (· ≤ ·)

-- ############################################################################
-- Validator: createRoomPairs (src/scripts.ts lines 52-68)
-- ############################################################################

/-- Constant `BUDGETING_TYPES` from src/scripts.ts. -/
def BUDGETING_TYPES : List (String × String) :=
  [("Enkel (rekommenderad)", "(enkel)"), ("Avancerad", "(avancerad)")]

/-- The value `BUDGETING_TYPES[type]` interpolated into a template string: a missing
key renders as `"undefined"` in JavaScript. -/
def budgetingSuffix (ty : String) : String :=
  (BUDGETING_TYPES.lookup ty).getD "undefined"

/-- The normalized pair `[roomName, template + " " + suffix]` built for one
input row (with the room name trimmed, as in the source). -/
def normalizeRoom (row : String × String × String) : String × String :=
  (strTrim row.1, row.2.1 ++ " " ++ budgetingSuffix row.2.2)

/-- The `.map` body of `createRoomPairs`, as a loop over the enumerated
rows accumulating the error string and the name/template pairs. -/
def createRoomPairsLoop (sheetNames : List String) :
    List (Nat × String × String × String) → String → List (String × String) →
      String × List (String × String)
  | [], error, pairs => (error, pairs)
  | (index, inputRoomName, template, ty) :: rest, error, pairs =>
    let roomName := strTrim inputRoomName
    let error := error ++
      (if roomName = "" then "Namn saknas till rum " ++ toString (index + 1) ++ "\n" else "")
    let error := error ++
      (if template = "" then "Mall saknas till rum " ++ toString (index + 1) ++ "\n" else "")
    let error := error ++
      (if ty = "" then "Budgeteringsalternativ saknas till rum " ++ toString (index + 1) ++ "\n"
       else "")
    let error := error ++
      (if roomName ∈ sheetNames then "Rum " ++ roomName ++ " finns redan\n" else "")
    createRoomPairsLoop sheetNames rest error
      (pairs ++ [(roomName, template ++ " " ++ budgetingSuffix ty)])

/-- The filter `names.filter((roomName, index, arr) => arr.indexOf(roomName) !== index)`:
every occurrence that is not the first occurrence of its name. -/
def duplicatesOf (names : List String) : List String :=
  (names.enum.filter (fun p => names.indexOf p.2 ≠ p.1)).map (fun p => p.2)

/-- Function `createRoomPairs` from src/scripts.ts.  `throw new Error(error)` is
modelled as `Except.error`. -/
def createRoomPairs (newRooms : List (String × String × String)) (sheetNames : List String) :
    Except String (List (String × String)) :=
  let state := createRoomPairsLoop sheetNames newRooms.enum "" []
  let duplicates := duplicatesOf (state.2.map Prod.fst)
  let error := state.1 ++
    (if duplicates.length > 0 then "Rumnamn upprepas: " ++ joinSep ", " duplicates ++ "\n"
     else "")
  if error ≠ "" then .error error else .ok state.2

/-- "name missing for room k" (1-based k). -/
def msgNamnSaknas (k : Nat) : String :=
  "Namn saknas till rum " ++ toString k ++ "\n"

/-- "template missing for room k". -/
def msgMallSaknas (k : Nat) : String :=
  "Mall saknas till rum " ++ toString k ++ "\n"

/-- "budgeting option missing for room k". -/
def msgBudgetSaknas (k : Nat) : String :=
  "Budgeteringsalternativ saknas till rum " ++ toString k ++ "\n"

/-- "room name already exists". -/
def msgFinnsRedan (name : String) : String :=
  "Rum " ++ name ++ " finns redan\n"

/-- "room names repeated: ...". -/
def msgUpprepas (names : List String) : String :=
  "Rumnamn upprepas: " ++ joinSep ", " names ++ "\n"

/-- The individual error messages raised for one enumerated input row, in
the order the source appends them. -/
def entryMessages (sheetNames : List String) (index : Nat) (row : String × String × String) :
    List String :=
  (if strTrim row.1 = "" then [msgNamnSaknas (index + 1)] else [])
  ++ (if row.2.1 = "" then [msgMallSaknas (index + 1)] else [])
  ++ (if row.2.2 = "" then [msgBudgetSaknas (index + 1)] else [])
  ++ (if strTrim row.1 ∈ sheetNames then [msgFinnsRedan (strTrim row.1)] else [])

/-- The duplicated (trimmed) names of a batch. -/
def duplicateNames (newRooms : List (String × String × String)) : List String :=
  duplicatesOf (newRooms.map (fun r => strTrim r.1))

/-- Every error message a batch raises: the per-entry messages in input
order followed by the combined duplicate-names line. -/
def allMessages (newRooms : List (String × String × String)) (sheetNames : List String) :
    List String :=
  (newRooms.enum.map (fun p => entryMessages sheetNames p.1 p.2)).flatten
  ++ (if duplicateNames newRooms = [] then []
      else [msgUpprepas (duplicateNames newRooms)])

-- ############################################################################
-- The spreadsheet surface and the three lifecycle operations
-- ############################################################################

/-- The parts of the spreadsheet the lifecycle operations read and write:
the sheet-name list, the dashboard's first column, the two boundary anchors,
the AddRooms input range and the selection table `(checkbox, roomName)`. -/
structure SpreadsheetModel where
  sheetNames : List String
  dashboardFirstCol : List (Option RichTextValue)
  materialRow : Nat
  sumRow : Nat
  addRoomsInput : List (String × String × String)
  configRooms : List (Bool × String)
deriving DecidableEq, Repr

/-- Function `createNewRoomSheets`: for each pair, copy the template sheet (when it
exists) to a new sheet named after the room. -/
def createNewRoomSheets (sheetNames : List String) (pairs : List (String × String)) :
    List String :=
  pairs.foldl (fun names p => if p.2 ∈ names then names ++ [p.1] else names) sheetNames

/-- Function `addNewRoomsToDashboard`: insert one row per room immediately above the
sum row and write a linked rich-text cell for each (`gid` resolves a sheet
name to the sheet id used in the `#gid=` link, `none` when absent). -/
def addNewRoomsToDashboard (gid : String → Option Nat) (sumRow : Nat)
    (firstCol : List (Option RichTextValue)) (roomNames : List String) :
    List (Option RichTextValue) :=
  let insertRow := sumRow
  let richTextValues := roomNames.map (fun roomName =>
    ({ text := roomName,
       linkUrl := some ("#gid=" ++ (match gid roomName with
         | some i => toString i
         | none => "undefined")) } : RichTextValue))
  firstCol.take (insertRow - 1) ++ richTextValues.map some ++ firstCol.drop (insertRow - 1)

/-- Function `addNewRooms` from src/scripts.ts: filter the non-blank input rows,
validate, and on failure only alert (no mutation); on an empty result only
toast; otherwise create the sheets, insert the dashboard rows and clear the
input range. -/
def addNewRooms (gid : String → Option Nat) (st : SpreadsheetModel) : SpreadsheetModel :=
  let newRoomRows := st.addRoomsInput.filter (fun r => r.1 ++ r.2.1 ++ r.2.2 ≠ "")
  match createRoomPairs newRoomRows st.sheetNames with
  | .error _ => st
  | .ok nameTemplatePairs =>
    if nameTemplatePairs.length = 0 then st
    else
      let newRooms := nameTemplatePairs.map Prod.fst
      { st with
        sheetNames := createNewRoomSheets st.sheetNames nameTemplatePairs
        dashboardFirstCol :=
          addNewRoomsToDashboard gid st.sumRow st.dashboardFirstCol newRooms
        addRoomsInput := st.addRoomsInput.map (fun _ => ("", "", "")) }

/-- Function `getSelectedRooms`: the names of the checked rows of the selection
table. -/
def getSelectedRooms (configRooms : List (Bool × String)) : List String :=
  (configRooms.filter (fun r => r.1)).map (fun r => r.2)

/-- One scripted operator answer to a prompt. -/
inductive PromptResponse where
  | cancelled
  | ok (text : String)
deriving DecidableEq, Repr

/-- Method `Map.set` of a JavaScript `Map`: update the value in place when the key
exists, otherwise append the new entry. -/
def mapSet (m : List (String × String)) (k v : String) : List (String × String) :=
  if k ∈ m.map Prod.fst then m.map (fun p => if p.1 = k then (p.1, v) else p)
  else m ++ [(k, v)]

/-- The nested prompt loop of `requestNewRoomNames`: one response is
consumed per prompt; a non-OK button returns `null`; a blank, already
existing, or already assigned name alerts and re-prompts for the same room;
otherwise the rename is recorded and the loop moves to the next room.
An exhausted response list is treated as a cancel (the real loop would
still be blocked waiting for the operator). -/
def requestLoop :
    List PromptResponse → List String → List String → List (String × String) →
      Option (List (String × String))
  | _, [], _, renameMap => some renameMap
  | [], _ :: _, _, _ => none
  | response :: rest, oldName :: oldRest, sheetNames, renameMap =>
    match response with
    | .cancelled => none
    | .ok text =>
      let newRoomName := strTrim text
      if newRoomName = "" then requestLoop rest (oldName :: oldRest) sheetNames renameMap
      else if newRoomName ∈ sheetNames then
        requestLoop rest (oldName :: oldRest) sheetNames renameMap
      else if newRoomName ∈ renameMap.map Prod.snd then
        requestLoop rest (oldName :: oldRest) sheetNames renameMap
      else requestLoop rest oldRest sheetNames (mapSet renameMap oldName newRoomName)

/-- Function `requestNewRoomNames` from src/scripts.ts, driven by a scripted list of
operator responses. -/
def requestNewRoomNames (responses : List PromptResponse)
    (oldRoomNames sheetNames : List String) : Option (List (String × String)) :=
  requestLoop responses oldRoomNames sheetNames []

/-- The call `getSheetByName(oldName)?.setName(newName)`: rename the first sheet
with the old name, if any. -/
def renameSheetName : List String → String → String → List String
  | [], _, _ => []
  | s :: rest, oldName, newName =>
    if s = oldName then newName :: rest else s :: renameSheetName rest oldName newName

/-- Function `renameSheets`: apply every entry of the rename map to the sheet-name
list, in map order. -/
def renameSheets (sheetNames : List String) (renameMap : List (String × String)) :
    List String :=
  renameMap.foldl (fun names p => renameSheetName names p.1 p.2) sheetNames

/-- The call `configExistingRoomsRange.uncheck()`: clear every checkbox. -/
def uncheckAll (rows : List (Bool × String)) : List (Bool × String) :=
  rows.map (fun r => (false, r.2))

/-- Function `renameRooms` from src/scripts.ts: collect the checked rooms, prompt for
the new names, and only when the whole collection succeeded rename the
sheets, relabel the dashboard band and uncheck the selection table. -/
def renameRooms (responses : List PromptResponse) (st : SpreadsheetModel) :
    SpreadsheetModel :=
  let selectedRooms := getSelectedRooms st.configRooms
  if selectedRooms.length = 0 then st
  else
    match requestNewRoomNames responses selectedRooms st.sheetNames with
    | none => st
    | some renamedRooms =>
      { st with
        sheetNames := renameSheets st.sheetNames renamedRooms
        dashboardFirstCol :=
          renameInDashboard renamedRooms st.materialRow st.sumRow st.dashboardFirstCol
        configRooms := uncheckAll st.configRooms }

-- ############################################################################
-- Concrete instances used by the examples, counterexamples and witnesses
-- ############################################################################

/-- A dashboard first column whose rows 5 through 9 hold the rooms
Kitchen, Den, Bath, Hall, Attic (rows 1-4 are headers/boundaries). -/
def exampleFirstCol : List String :=
  ["Rum", "Översikt", "Arbete", "Material", "Kitchen", "Den", "Bath", "Hall", "Attic"]

/-- A dashboard first column where the selected name "Bath" also occurs in
row 1, above the band: with `materialRow = 4` and `sumRow = 8` the band is
rows 5-7 (`Bath`, `Hall`, `Attic`), but the first match of "Bath" is row 1. -/
def strayFirstCol : List String :=
  ["Bath", "Rubrik", "Arbete", "Material", "Bath", "Hall", "Attic", "Summa"]

/-- The rich-text view of `exampleFirstCol` (plus the sum row): with
`materialRow = 4` and `sumRow = 10` the band is rows 5-9, the five rooms. -/
def exampleRichCol : List (Option RichTextValue) :=
  [some ⟨"Rum", none⟩, some ⟨"Översikt", none⟩, some ⟨"Arbete", none⟩,
   some ⟨"Material", none⟩, some ⟨"Kitchen", some "#gid=101"⟩,
   some ⟨"Den", some "#gid=102"⟩, some ⟨"Bath", some "#gid=103"⟩,
   some ⟨"Hall", some "#gid=104"⟩, some ⟨"Attic", some "#gid=105"⟩,
   some ⟨"Summa", none⟩]

/-- A spreadsheet whose AddRooms input has a room with a blank name, so
that validation fails. -/
def addFailState : SpreadsheetModel :=
  { sheetNames := ["Dashboard", "Konfigurera projekt", "Mall"]
    dashboardFirstCol := [some ⟨"Rum", none⟩, some ⟨"Summa", none⟩]
    materialRow := 1
    sumRow := 2
    addRoomsInput := [("", "Mall", "Enkel (rekommenderad)"), ("", "", "")]
    configRooms := [] }

/-- A spreadsheet with three rooms selected for renaming. -/
def renameCancelState : SpreadsheetModel :=
  { sheetNames := ["Dashboard", "R1", "R2", "R3"]
    dashboardFirstCol := [some ⟨"R1", some "#gid=1"⟩, some ⟨"R2", some "#gid=2"⟩,
      some ⟨"R3", some "#gid=3"⟩]
    materialRow := 0
    sumRow := 4
    addRoomsInput := []
    configRooms := [(true, "R1"), (true, "R2"), (true, "R3")] }

-- ############################################################################
-- Lemmas about the range grouper
-- ############################################################################

theorem bumpLast_append (gs : List (Int × Nat)) (s : Int) (c : Nat) :
    bumpLast (gs ++ [(s, c)]) = gs ++ [(s, c + 1)] := by
  induction gs with
  | nil => rfl
  | cons g rest ih =>
    cases rest with
    | nil => rfl
    | cons g2 rest2 =>
      show g :: bumpLast ((g2 :: rest2) ++ [(s, c)]) = g :: ((g2 :: rest2) ++ [(s, c + 1)])
      rw [ih]

theorem expandGroup_succ (s : Int) (c : Nat) :
    expandGroup (s, c + 1) = expandGroup (s, c) ++ [s + c] := by
  simp [expandGroup, List.range_succ]

theorem expandGroup_one (n : Int) : expandGroup (n, 1) = [n] := by
  simp [expandGroup, List.range_succ]

/-- Expanding the groups accumulated so far and appending the unread input
is an invariant of the grouping loop (no sortedness assumption needed):
each group records exactly the run of input values that created it. -/
theorem groupLoop_flatten (l : List Int) :
    ∀ (gs : List (Int × Nat)) (s : Int) (c : Nat) (p : Int), p = s + (c : Int) - 1 →
      ((groupLoop (gs ++ [(s, c)]) (some p) l).map expandGroup).flatten
        = ((gs ++ [(s, c)]).map expandGroup).flatten ++ l := by
  induction l with
  | nil => intro gs s c p _; simp [groupLoop]
  | cons n rest ih =>
    intro gs s c p hp
    simp only [groupLoop]
    by_cases h : n = p + 1
    · rw [if_pos h, bumpLast_append,
        ih gs s (c + 1) n (by push_cast; omega)]
      simp only [List.map_append, List.flatten_append, expandGroup_succ, List.map_cons,
        List.map_nil, List.flatten_cons, List.flatten_nil]
      have hn : n = s + (c : Int) := by omega
      subst hn
      simp [List.append_assoc]
    · rw [if_neg h, ih (gs ++ [(s, c)]) n 1 n (by push_cast; ring)]
      simp [expandGroup_one, List.append_assoc]

/-- Expanding the groups of `groupAdjacentNumbers` (before the final
reverse) and concatenating yields exactly the input list. -/
theorem groupLoop_flatten_nil (l : List Int) :
    ((groupLoop [] none l).map expandGroup).flatten = l := by
  cases l with
  | nil => rfl
  | cons n rest =>
    show ((groupLoop ([] ++ [(n, 1)]) (some n) rest).map expandGroup).flatten = n :: rest
    rw [groupLoop_flatten rest [] n 1 n (by push_cast; ring)]
    simp [expandGroup_one]

/-- Reversing the output of `groupAdjacentNumbers` back to ascending order
and expanding each group reconstructs the input list exactly. -/
theorem groupAdjacentNumbers_flatten (l : List Int) :
    (((groupAdjacentNumbers l).reverse.map expandGroup).flatten) = l := by
  unfold groupAdjacentNumbers
  rw [List.reverse_reverse]
  exact groupLoop_flatten_nil l

/-- The concatenated expansions of the output groups hold exactly the
elements of the input. -/
theorem mem_groupAdjacentNumbers_iff (l : List Int) (x : Int) :
    (x ∈ ((groupAdjacentNumbers l).map expandGroup).flatten) ↔ x ∈ l := by
  conv_rhs => rw [← groupAdjacentNumbers_flatten l]
  simp [List.mem_flatten]

theorem mem_expandGroup (g : Int × Nat) (x : Int) :
    x ∈ expandGroup g ↔ g.1 ≤ x ∧ x < g.1 + (g.2 : Int) := by
  unfold expandGroup
  rw [List.mem_map]
  constructor
  · rintro ⟨j, hj, rfl⟩
    rw [List.mem_range] at hj
    omega
  · rintro ⟨h1, h2⟩
    refine ⟨(x - g.1).toNat, ?_, ?_⟩
    · rw [List.mem_range]; omega
    · omega

/-- For strictly ascending input, the group starts accumulated by the loop
are strictly increasing. -/
theorem groupLoop_starts (l : List Int) :
    ∀ (gs : List (Int × Nat)) (s : Int) (c : Nat) (p : Int),
      c ≠ 0 → p = s + (c : Int) - 1 →
      List.Chain' (· < ·) ((gs ++ [(s, c)]).map Prod.fst) →
      List.Chain' (· < ·) (p :: l) →
      List.Chain' (· < ·) ((groupLoop (gs ++ [(s, c)]) (some p) l).map Prod.fst) := by
  induction l with
  | nil => intro gs s c p _ _ hchain _; simpa [groupLoop] using hchain
  | cons n rest ih =>
    intro gs s c p hc hp hchain hasc
    have hpn : p < n := (List.chain'_cons.mp hasc).1
    have hasc' : List.Chain' (· < ·) (n :: rest) := (List.chain'_cons.mp hasc).2
    simp only [groupLoop]
    by_cases h : n = p + 1
    · rw [if_pos h, bumpLast_append]
      refine ih gs s (c + 1) n (by omega) (by push_cast; omega) ?_ hasc'
      have : (gs ++ [(s, c + 1)]).map Prod.fst = (gs ++ [(s, c)]).map Prod.fst := by simp
      rw [this]; exact hchain
    · rw [if_neg h]
      refine ih (gs ++ [(s, c)]) n 1 n one_ne_zero (by push_cast; ring) ?_ hasc'
      rw [List.map_append, List.chain'_append]
      refine ⟨hchain, by simp, ?_⟩
      intro x hx y hy
      simp only [List.map_cons, List.map_nil, List.head?_cons, Option.mem_def,
        Option.some.injEq] at hy
      have hlast : ((gs ++ [(s, c)]).map Prod.fst).getLast? = some s := by
        rw [List.map_append]; simp
      rw [List.map_append] at hx
      rw [List.map_append] at hlast
      rw [hlast] at hx
      simp only [Option.mem_def, Option.some.injEq] at hx
      subst hx; subst hy
      omega

/-- For strictly ascending input, the starts of the reversed output of
`groupAdjacentNumbers` are strictly decreasing. -/
theorem groupAdjacentNumbers_starts (l : List Int) (hasc : List.Chain' (· < ·) l) :
    List.Chain' (fun a b : Int × Nat => b.1 < a.1) (groupAdjacentNumbers l) := by
  unfold groupAdjacentNumbers
  rw [List.chain'_reverse]
  cases l with
  | nil => simp [groupLoop]
  | cons n rest =>
    have h := groupLoop_starts rest [] n 1 n one_ne_zero (by push_cast; ring)
      (by simp) hasc
    rw [List.chain'_map] at h
    exact h

-- ############################################################################
-- C1: groupAdjacentNumbers specification
-- ############################################################################

/-- C1: for every strictly ascending (hence duplicate-free) list of
integers, `groupAdjacentNumbers` returns `(start, count)` groups such that
expanding each group to its run `[start, start + count)` and concatenating
reconstructs exactly the input set (the concatenation in ascending group
order is the input list itself, and the concatenation in output order has
exactly the input's members), the starts are strictly decreasing across the
output, and in particular `[] ↦ []`, `[5] ↦ [(5,1)]`, and
`[2,3,4,7,9,10] ↦ [(9,2),(7,1),(2,3)]`. -/
theorem groupAdjacentNumbers_spec (numbers : List Int)
    (hasc : List.Chain' (· < ·) numbers) :
    (((groupAdjacentNumbers numbers).reverse.map expandGroup).flatten = numbers)
    ∧ (∀ x : Int, x ∈ ((groupAdjacentNumbers numbers).map expandGroup).flatten ↔ x ∈ numbers)
    ∧ List.Chain' (fun a b : Int × Nat => b.1 < a.1) (groupAdjacentNumbers numbers)
    ∧ groupAdjacentNumbers [] = []
    ∧ groupAdjacentNumbers [5] = [(5, 1)]
    ∧ groupAdjacentNumbers [2, 3, 4, 7, 9, 10] = [(9, 2), (7, 1), (2, 3)] :=
  ⟨groupAdjacentNumbers_flatten numbers,
   mem_groupAdjacentNumbers_iff numbers,
   groupAdjacentNumbers_starts numbers hasc,
   by decide, by decide, by decide⟩

/-- Witness for C1 at the spec's example input. -/
theorem groupAdjacentNumbers_spec_witness :
    List.Chain' (· < ·) ([2, 3, 4, 7, 9, 10] : List Int)
    ∧ (((groupAdjacentNumbers [2, 3, 4, 7, 9, 10]).reverse.map expandGroup).flatten
        = [2, 3, 4, 7, 9, 10])
    ∧ groupAdjacentNumbers [2, 3, 4, 7, 9, 10] = [(9, 2), (7, 1), (2, 3)] :=
  ⟨by norm_num [List.chain'_cons],
   (groupAdjacentNumbers_spec [2, 3, 4, 7, 9, 10] (by norm_num [List.chain'_cons])).1,
   (groupAdjacentNumbers_spec [2, 3, 4, 7, 9, 10]
     (by norm_num [List.chain'_cons])).2.2.2.2.2⟩

-- ############################################################################
-- C2: the dashboard deletion pipeline
-- ############################################################################

/-- C2 counterexample: `deleteInDashboard` does not deduplicate or sort the
resolved positions before grouping, and hence does not always issue its
deletion groups in descending-start order.  With first column `["A", "B"]`
and selected names `["B", "A"]` the resolved positions are `[2, 1]`
(unsorted), the issued groups are `[(1,1), (2,1)]` whose starts are not
strictly decreasing, while the pipeline the claim describes
(dedupe + ascending sort, then group) would issue the single group
`(1, 2)`. -/
theorem deleteInDashboard_order_cex :
    deleteIndexes ["A", "B"] ["B", "A"] = [2, 1]
    ∧ deleteGroups ["A", "B"] ["B", "A"] = [(1, 1), (2, 1)]
    ∧ ¬ List.Chain' (fun a b : Int × Nat => b.1 < a.1) (deleteGroups ["A", "B"] ["B", "A"])
    ∧ groupAdjacentNumbers (dedupSortAscending (deleteIndexes ["A", "B"] ["B", "A"]))
        = [(1, 2)]
    ∧ deleteGroups ["A", "B"] ["B", "A"]
        ≠ groupAdjacentNumbers (dedupSortAscending (deleteIndexes ["A", "B"] ["B", "A"])) := by
  refine ⟨by decide, by decide, ?_, by decide, by decide⟩
  have h : deleteGroups ["A", "B"] ["B", "A"] = [(1, 1), (2, 1)] := by decide
  rw [h]
  intro hc
  have hlt := (List.chain'_cons.mp hc).1
  norm_num at hlt

/-- C2 (amended): the deletion step resolves each selected name to the row
of its first match in the first column (misses silently dropped) and feeds
the resulting positions, in selection order and without deduplication or
sorting, to the range grouper; whenever those positions are strictly
ascending the issued groups' starts are strictly decreasing and the groups
expand exactly to those positions; and in the concrete
Kitchen/Den/Bath/Hall/Attic dashboard, deleting `["Bath", "Hall"]` issues
exactly the single grouped deletion `(7, 2)`. -/
theorem deleteInDashboard_amended (firstCol names : List String)
    (hasc : List.Chain' (· < ·) (deleteIndexes firstCol names)) :
    List.Chain' (fun a b : Int × Nat => b.1 < a.1) (deleteGroups firstCol names)
    ∧ (((deleteGroups firstCol names).reverse.map expandGroup).flatten
        = deleteIndexes firstCol names)
    ∧ deleteIndexes exampleFirstCol ["Bath", "Hall"] = [7, 8]
    ∧ deleteGroups exampleFirstCol ["Bath", "Hall"] = [(7, 2)] :=
  ⟨groupAdjacentNumbers_starts _ hasc,
   groupAdjacentNumbers_flatten _,
   by decide, by decide⟩

/-- Witness for C2 (amended) at the spec's concrete dashboard. -/
theorem deleteInDashboard_amended_witness :
    (((deleteGroups exampleFirstCol ["Bath", "Hall"]).reverse.map expandGroup).flatten
        = deleteIndexes exampleFirstCol ["Bath", "Hall"])
    ∧ deleteGroups exampleFirstCol ["Bath", "Hall"] = [(7, 2)] :=
  ⟨(deleteInDashboard_amended exampleFirstCol ["Bath", "Hall"]
      (by have h : deleteIndexes exampleFirstCol ["Bath", "Hall"] = [7, 8] := by decide
          rw [h]; norm_num [List.chain'_cons])).2.1,
   (deleteInDashboard_amended exampleFirstCol ["Bath", "Hall"]
      (by have h : deleteIndexes exampleFirstCol ["Bath", "Hall"] = [7, 8] := by decide
          rw [h]; norm_num [List.chain'_cons])).2.2.2⟩

-- ############################################################################
-- C3: the dashboard band
-- ############################################################################

/-- Relabeling never inserts or removes rows. -/
theorem renameInDashboard_length (m : List (String × String)) (matR sumR : Nat)
    (col : List (Option RichTextValue)) :
    (renameInDashboard m matR sumR col).length = col.length := by
  simp only [renameInDashboard, List.length_append, List.length_map, List.length_take,
    List.length_drop]
  omega

/-- Cell-level description of `renameInDashboard`: band cells (list indices
`materialRow` through `materialRow + (sumRow - materialRow - 1) - 1`) are
rewritten with `renameRichText`; every other cell is returned unchanged. -/
theorem renameInDashboard_getElem (m : List (String × String)) (matR sumR : Nat)
    (col : List (Option RichTextValue)) (i : Nat) :
    (renameInDashboard m matR sumR col)[i]?
      = if matR ≤ i ∧ i < matR + (sumR - matR - 1)
          then (col[i]?).map (fun room => some (renameRichText m room))
          else col[i]? := by
  by_cases hiL : i < col.length
  · simp only [renameInDashboard]
    rw [List.append_assoc, List.getElem?_append]
    by_cases hM : i < matR
    · have hA : i < (col.take matR).length := by
        simp only [List.length_take]
        omega
      rw [if_pos hA, List.getElem?_take, if_pos hM, if_neg (by omega)]
    · have hA : ¬ i < (col.take matR).length := by
        simp only [List.length_take]
        omega
      rw [if_neg hA]
      have hAlen : (col.take matR).length = matR := by
        simp only [List.length_take]
        omega
      rw [hAlen, List.getElem?_append]
      by_cases hB : i - matR < sumR - matR - 1
      · have hBlen : i - matR < (((col.drop matR).take (sumR - matR - 1)).map
            (fun room => some (renameRichText m room))).length := by
          simp only [List.length_map, List.length_take, List.length_drop]
          omega
        rw [if_pos hBlen, List.getElem?_map, List.getElem?_take, if_pos hB,
          List.getElem?_drop, if_pos (by omega)]
        have hidx : matR + (i - matR) = i := by omega
        rw [hidx]
      · have hBlen : ¬ i - matR < (((col.drop matR).take (sumR - matR - 1)).map
            (fun room => some (renameRichText m room))).length := by
          simp only [List.length_map, List.length_take, List.length_drop]
          omega
        rw [if_neg hBlen]
        have hBlen2 : (((col.drop matR).take (sumR - matR - 1)).map
            (fun room => some (renameRichText m room))).length
              = min (sumR - matR - 1) (col.length - matR) := by
          simp only [List.length_map, List.length_take, List.length_drop]
        rw [hBlen2, List.getElem?_drop, if_neg (by omega)]
        have hidx : matR + (sumR - matR - 1) + (i - matR - min (sumR - matR - 1)
            (col.length - matR)) = i := by omega
        rw [hidx]
  · have h1 : col[i]? = none := List.getElem?_eq_none (by omega)
    have h2 : (renameInDashboard m matR sumR col)[i]? = none :=
      List.getElem?_eq_none (by rw [renameInDashboard_length]; omega)
    rw [h1, h2]
    simp

/-- C3 counterexample: with the dashboard `strayFirstCol`, material row 4
and sum row 8 (band rows 5-7), the room "Bath" is present in the band, but
deleting it issues the grouped deletion `(1, 1)` — row 1, outside the band —
because the first match of "Bath" in the first column is above the band. -/
theorem bandSafety_cex :
    deleteGroups strayFirstCol ["Bath"] = [(1, 1)]
    ∧ "Bath" ∈ (strayFirstCol.drop 4).take (8 - 4 - 1)
    ∧ ¬ (∀ g ∈ deleteGroups strayFirstCol ["Bath"], (4 : Int) + 1 ≤ g.1) := by
  refine ⟨by decide, by decide, ?_⟩
  intro hall
  have h := hall (1, 1) (by decide)
  norm_num at h

/-- C3 (amended): renames rewrite cells only inside the band — every list
index below `materialRow` or at/after `materialRow + (sumRow-materialRow-1)`
is returned unchanged and the row count is preserved; and a batch of
deletions stays inside the band provided the first match of every selected
name lies in the band: every row covered by an issued deletion group is one
of the resolved first-match positions. -/
theorem bandSafety_amended (renameMap : List (String × String)) (matR sumR : Nat)
    (col : List (Option RichTextValue)) (firstCol names : List String)
    (hband : ∀ i ∈ deleteIndexes firstCol names,
      (matR : Int) + 1 ≤ i ∧ i ≤ (sumR : Int) - 1) :
    ((renameInDashboard renameMap matR sumR col).length = col.length)
    ∧ (∀ i : Nat, i < matR ∨ matR + (sumR - matR - 1) ≤ i →
        (renameInDashboard renameMap matR sumR col)[i]? = col[i]?)
    ∧ (∀ g ∈ deleteGroups firstCol names, ∀ r : Int,
        g.1 ≤ r → r < g.1 + (g.2 : Int) → (matR : Int) + 1 ≤ r ∧ r ≤ (sumR : Int) - 1) := by
  refine ⟨renameInDashboard_length renameMap matR sumR col, ?_, ?_⟩
  · intro i hi
    rw [renameInDashboard_getElem, if_neg (by omega)]
  · intro g hg r h1 h2
    have hr : r ∈ expandGroup g := (mem_expandGroup g r).mpr ⟨h1, h2⟩
    have hflat : r ∈ ((groupAdjacentNumbers (deleteIndexes firstCol names)).map
        expandGroup).flatten :=
      List.mem_flatten.mpr ⟨expandGroup g, List.mem_map_of_mem _ hg, hr⟩
    exact hband r ((mem_groupAdjacentNumbers_iff _ r).mp hflat)

/-- Witness for C3 (amended) on the Kitchen/Den/Bath/Hall/Attic dashboard
with band rows 5-9. -/
theorem bandSafety_amended_witness :
    (renameInDashboard [("Kitchen", "Den")] 4 10 exampleRichCol).length
        = exampleRichCol.length
    ∧ ((4 : Int) + 1 ≤ 7 ∧ (7 : Int) ≤ (10 : Int) - 1) :=
  ⟨(bandSafety_amended [("Kitchen", "Den")] 4 10 exampleRichCol exampleFirstCol
      ["Bath", "Hall"] (by decide)).1,
   (bandSafety_amended [("Kitchen", "Den")] 4 10 exampleRichCol exampleFirstCol
      ["Bath", "Hall"] (by decide)).2.2 (7, 2) (by decide) 7 (by norm_num) (by norm_num)⟩

-- ############################################################################
-- C4: relabeling preserves link targets and the row count
-- ############################################################################

/-- C4: for every rename map and dashboard cell, a cell whose text matches a
key of the map is replaced by a rich-text value carrying the mapped new name
and the original link target unchanged; a cell matching no key passes
through as the very same value; relabeling never inserts or removes rows,
and every band cell is transformed exactly by `renameRichText`. -/
theorem renameInDashboard_cells_spec (m : List (String × String)) (c : RichTextValue) :
    (∀ newName, m.lookup c.text = some newName →
        renameRichText m (some c) = { text := newName, linkUrl := c.linkUrl })
    ∧ (m.lookup c.text = none → renameRichText m (some c) = c)
    ∧ (∀ matR sumR (col : List (Option RichTextValue)),
        (renameInDashboard m matR sumR col).length = col.length)
    ∧ (∀ matR sumR (col : List (Option RichTextValue)) (i : Nat),
        matR ≤ i → i < matR + (sumR - matR - 1) →
        (renameInDashboard m matR sumR col)[i]?
          = (col[i]?).map (fun room => some (renameRichText m room))) := by
  refine ⟨?_, ?_, fun matR sumR col => renameInDashboard_length m matR sumR col, ?_⟩
  · intro newName h
    simp [renameRichText, h]
  · intro h
    simp [renameRichText, h]
  · intro matR sumR col i h1 h2
    rw [renameInDashboard_getElem, if_pos ⟨h1, h2⟩]

/-- Witness for C4 at the spec's example: `{"Kitchen": "Den"}` applied to a
cell `("Kitchen", doc://123)` keeps the link, and a `"Bath"` cell is
returned unchanged. -/
theorem renameInDashboard_cells_spec_witness :
    renameRichText [("Kitchen", "Den")] (some ⟨"Kitchen", some "doc://123"⟩)
        = ⟨"Den", some "doc://123"⟩
    ∧ renameRichText [("Kitchen", "Den")] (some ⟨"Bath", some "doc://9"⟩)
        = ⟨"Bath", some "doc://9"⟩
    ∧ (renameInDashboard [("Kitchen", "Den")] 4 10 exampleRichCol).length
        = exampleRichCol.length :=
  ⟨(renameInDashboard_cells_spec [("Kitchen", "Den")] ⟨"Kitchen", some "doc://123"⟩).1
      "Den" rfl,
   (renameInDashboard_cells_spec [("Kitchen", "Den")] ⟨"Bath", some "doc://9"⟩).2.1 rfl,
   (renameInDashboard_cells_spec [("Kitchen", "Den")]
      ⟨"Kitchen", some "doc://123"⟩).2.2.1 4 10 exampleRichCol⟩

-- ############################################################################
-- C5: the validator collects every error
-- ############################################################################

theorem concatMessages_append (a b : List String) :
    concatMessages (a ++ b) = concatMessages a ++ concatMessages b := by
  induction a with
  | nil => rw [List.nil_append, concatMessages, String.empty_append]
  | cons x rest ih =>
    rw [List.cons_append, concatMessages, concatMessages, ih, String.append_assoc]

theorem concatMessages_entryMessages (s : List String) (i : Nat)
    (row : String × String × String) :
    concatMessages (entryMessages s i row)
      = (if strTrim row.1 = "" then msgNamnSaknas (i + 1) else "")
        ++ (if row.2.1 = "" then msgMallSaknas (i + 1) else "")
        ++ (if row.2.2 = "" then msgBudgetSaknas (i + 1) else "")
        ++ (if strTrim row.1 ∈ s then msgFinnsRedan (strTrim row.1) else "") := by
  unfold entryMessages
  split_ifs <;>
    simp [concatMessages, String.append_assoc, String.append_empty, String.empty_append]

/-- Unrolling the accumulation loop of `createRoomPairs`: the final error
string is the accumulator followed by every entry's messages concatenated
in input order, and the final pair list is the accumulator followed by the
normalized rows in input order. -/
theorem createRoomPairsLoop_spec (s : List String)
    (rows : List (Nat × String × String × String)) :
    ∀ (error : String) (pairs : List (String × String)),
      createRoomPairsLoop s rows error pairs
        = (error ++ concatMessages ((rows.map (fun p => entryMessages s p.1 p.2)).flatten),
           pairs ++ rows.map (fun p => normalizeRoom p.2)) := by
  induction rows with
  | nil =>
    intro error pairs
    simp [createRoomPairsLoop, concatMessages, String.append_empty]
  | cons row rest ih =>
    intro error pairs
    obtain ⟨i, n, t, ty⟩ := row
    simp only [createRoomPairsLoop]
    rw [ih]
    simp only [List.map_cons, List.flatten_cons, concatMessages_append, Prod.mk.injEq]
    constructor
    · rw [concatMessages_entryMessages]
      simp [msgNamnSaknas, msgMallSaknas, msgBudgetSaknas, msgFinnsRedan,
        String.append_assoc]
    · simp [normalizeRoom, List.append_assoc]

theorem mem_entryMessages (s : List String) (i : Nat) (row : String × String × String)
    (m : String) (hm : m ∈ entryMessages s i row) :
    m = msgNamnSaknas (i + 1) ∨ m = msgMallSaknas (i + 1) ∨ m = msgBudgetSaknas (i + 1)
      ∨ m = msgFinnsRedan (strTrim row.1) := by
  simp only [entryMessages, List.mem_append] at hm
  rcases hm with ((hm | hm) | hm) | hm <;>
    · split at hm <;> simp only [List.mem_singleton, List.not_mem_nil] at hm
      · tauto

theorem length_pos_of_msg (k : Nat) (name : String) (names : List String) :
    0 < (msgNamnSaknas k).length ∧ 0 < (msgMallSaknas k).length
      ∧ 0 < (msgBudgetSaknas k).length ∧ 0 < (msgFinnsRedan name).length
      ∧ 0 < (msgUpprepas names).length := by
  have h1 : ("\n" : String).length = 1 := rfl
  have h2 : (" finns redan\n" : String).length = 13 := rfl
  refine ⟨?_, ?_, ?_, ?_, ?_⟩ <;>
    simp [msgNamnSaknas, msgMallSaknas, msgBudgetSaknas, msgFinnsRedan, msgUpprepas,
      String.length_append, h1, h2]

theorem allMessages_length_pos (rooms : List (String × String × String))
    (s : List String) : ∀ m ∈ allMessages rooms s, 0 < m.length := by
  intro m hm
  simp only [allMessages, List.mem_append] at hm
  rcases hm with hm | hm
  · rw [List.mem_flatten] at hm
    obtain ⟨inner, hinner, hmem⟩ := hm
    rw [List.mem_map] at hinner
    obtain ⟨p, _, rfl⟩ := hinner
    rcases mem_entryMessages s p.1 p.2 m hmem with rfl | rfl | rfl | rfl
    · exact (length_pos_of_msg (p.1 + 1) "" []).1
    · exact (length_pos_of_msg (p.1 + 1) "" []).2.1
    · exact (length_pos_of_msg (p.1 + 1) "" []).2.2.1
    · exact (length_pos_of_msg (p.1 + 1) (strTrim p.2.1) []).2.2.2.1
  · split at hm <;> simp only [List.mem_singleton, List.not_mem_nil] at hm
    subst hm
    exact (length_pos_of_msg 0 "" (duplicateNames rooms)).2.2.2.2

theorem concatMessages_length_pos (msgs : List String) (hne : msgs ≠ [])
    (h : ∀ m ∈ msgs, 0 < m.length) : 0 < (concatMessages msgs).length := by
  cases msgs with
  | nil => exact absurd rfl hne
  | cons m rest =>
    rw [concatMessages, String.length_append]
    have := h m (List.mem_cons_self m rest)
    omega

/-- The result of `createRoomPairs`, expressed through the full message
list: failure with every message concatenated when any message was raised,
success with the normalized pairs otherwise. -/
theorem createRoomPairs_eq (rooms : List (String × String × String)) (s : List String) :
    createRoomPairs rooms s
      = if allMessages rooms s = [] then .ok (rooms.map normalizeRoom)
        else .error (concatMessages (allMessages rooms s)) := by
  have hpairs : rooms.enum.map (fun p => normalizeRoom p.2) = rooms.map normalizeRoom := by
    rw [show (fun p : Nat × (String × String × String) => normalizeRoom p.2)
        = normalizeRoom ∘ Prod.snd from rfl, ← List.map_map, List.enum_map_snd]
  have hdups : (rooms.map normalizeRoom).map Prod.fst
      = rooms.map (fun r => strTrim r.1) := by
    rw [List.map_map]; rfl
  simp only [createRoomPairs, createRoomPairsLoop_spec, String.empty_append,
    List.nil_append, hpairs, hdups]
  have hperm : duplicatesOf (rooms.map fun r => strTrim r.1) = duplicateNames rooms := rfl
  rw [hperm]
  set perEntry := concatMessages ((rooms.enum.map (fun p => entryMessages s p.1 p.2)).flatten)
    with hperEntry
  by_cases hdup : duplicateNames rooms = []
  · have hmsg : allMessages rooms s
        = (rooms.enum.map (fun p => entryMessages s p.1 p.2)).flatten := by
      simp [allMessages, hdup]
    rw [hmsg, hdup]
    simp only [List.length_nil, gt_iff_lt, lt_self_iff_false, if_false,
      String.append_empty]
    by_cases hpe : (rooms.enum.map (fun p => entryMessages s p.1 p.2)).flatten = []
    · rw [if_pos hpe]
      have hempty : perEntry = "" := by rw [hperEntry, hpe]; rfl
      rw [if_neg (by simp [hempty])]
    · rw [if_neg hpe]
      have hpos : 0 < perEntry.length :=
        concatMessages_length_pos _ hpe (by
          intro m hm
          exact allMessages_length_pos rooms s m (by rw [hmsg]; exact hm))
      rw [if_pos (by
        intro hcontra
        rw [hcontra] at hpos
        simp at hpos)]
  · have hlen : (duplicateNames rooms).length > 0 := List.length_pos.mpr hdup
    rw [if_pos hlen]
    have hmsg : allMessages rooms s
        = (rooms.enum.map (fun p => entryMessages s p.1 p.2)).flatten
          ++ [msgUpprepas (duplicateNames rooms)] := by
      simp [allMessages, hdup]
    have hupos : 0 < (msgUpprepas (duplicateNames rooms)).length :=
      (length_pos_of_msg 0 "" (duplicateNames rooms)).2.2.2.2
    have herrpos : 0 < (perEntry ++ msgUpprepas (duplicateNames rooms)).length := by
      rw [String.length_append]; omega
    rw [if_pos (by
      intro hcontra
      rw [show ("Rumnamn upprepas: " ++ joinSep ", " (duplicateNames rooms) ++ "\n")
          = msgUpprepas (duplicateNames rooms) from rfl] at hcontra
      rw [hcontra] at herrpos
      simp at herrpos)]
    rw [if_neg (by simp [hmsg])]
    rw [hmsg, concatMessages_append]
    rw [show ("Rumnamn upprepas: " ++ joinSep ", " (duplicateNames rooms) ++ "\n")
        = msgUpprepas (duplicateNames rooms) from rfl]
    rw [show concatMessages [msgUpprepas (duplicateNames rooms)]
        = msgUpprepas (duplicateNames rooms) ++ "" from rfl]
    rw [String.append_empty]

theorem concatMessages_mem_split (msgs : List String) (msg : String) (h : msg ∈ msgs) :
    ∃ pre post, concatMessages msgs = pre ++ msg ++ post := by
  induction msgs with
  | nil => cases h
  | cons m rest ih =>
    rcases List.mem_cons.mp h with rfl | h2
    · exact ⟨"", concatMessages rest, by
        rw [concatMessages, String.empty_append]⟩
    · obtain ⟨pre, post, hp⟩ := ih h2
      exact ⟨m ++ pre, post, by
        rw [concatMessages, hp]
        simp [String.append_assoc]⟩

/-- C5: validation never stops at the first problem — for every batch,
either no check fires and the whole batch succeeds with the normalized
pairs, or the batch fails with the single string concatenating every
detected error message (blank name, blank template, blank budgeting kind,
collision with an existing name, within-batch duplicates), each raised
message occurring inside the failure value. -/
theorem createRoomPairs_collects_all_errors (rooms : List (String × String × String))
    (s : List String) :
    (allMessages rooms s = [] ∧ createRoomPairs rooms s = .ok (rooms.map normalizeRoom))
    ∨ (allMessages rooms s ≠ []
        ∧ createRoomPairs rooms s = .error (concatMessages (allMessages rooms s))
        ∧ ∀ msg ∈ allMessages rooms s, ∃ pre post,
            concatMessages (allMessages rooms s) = pre ++ msg ++ post) := by
  by_cases h : allMessages rooms s = []
  · exact Or.inl ⟨h, by rw [createRoomPairs_eq, if_pos h]⟩
  · exact Or.inr ⟨h, by rw [createRoomPairs_eq, if_neg h],
      fun msg hm => concatMessages_mem_split _ msg hm⟩

/-- Witness for C5: a single row with all three fields blank produces all
three messages in one failure value. -/
theorem createRoomPairs_collects_all_errors_witness :
    createRoomPairs [("", "", "")] []
      = .error ("Namn saknas till rum 1\nMall saknas till rum 1\nBudgeteringsalternativ saknas till rum 1\n") := by
  rcases createRoomPairs_collects_all_errors [("", "", "")] [] with ⟨hnil, -⟩ | ⟨-, herr, -⟩
  · exact absurd hnil (by decide)
  · rw [herr]
    have h : concatMessages (allMessages [("", "", "")] [])
        = "Namn saknas till rum 1\nMall saknas till rum 1\nBudgeteringsalternativ saknas till rum 1\n" := by
      decide
    rw [h]

-- ############################################################################
-- C8: duplicate names are reported once, in the duplicates line only
-- ############################################################################

/-- C8: validating `[("A","T1","k1"), ("A","T2","k1")]` against an empty
existing-name set fails with exactly the duplicates line; "A" occurs exactly
once in it and no "finns redan" (room already exists) message is raised for
the second A, because the collision check only consults the externally
supplied sheet names. -/
theorem createRoomPairs_duplicate_reporting :
    createRoomPairs [("A", "T1", "k1"), ("A", "T2", "k1")] []
        = .error "Rumnamn upprepas: A\n"
    ∧ ("Rumnamn upprepas: A\n".toList.count 'A') = 1
    ∧ ¬ ("finns redan".toList <:+: "Rumnamn upprepas: A\n".toList) :=
  ⟨rfl, by decide, by decide⟩

-- ############################################################################
-- C9: trimming, tagging and the success shape
-- ############################################################################

/-- The first occurrence found by `indexOf` is no later than any position
holding the element. -/
theorem indexOf_le_of_getElem (l : List String) :
    ∀ (i : Nat) (a : String), l[i]? = some a → l.indexOf a ≤ i := by
  induction l with
  | nil => intro i a h; simp at h
  | cons x rest ih =>
    intro i a h
    cases i with
    | zero =>
      rw [List.getElem?_cons_zero, Option.some.injEq] at h
      subst h
      rw [List.indexOf_cons_self]
    | succ j =>
      rw [List.getElem?_cons_succ] at h
      by_cases hx : x = a
      · subst hx
        rw [List.indexOf_cons_self]
        omega
      · rw [List.indexOf_cons_ne rest hx]
        have := ih j a h
        omega

/-- C9: the validator trims each candidate name before any check — an entry
whose name is blank after trimming is reported with that entry's 1-based
position, the collision check consults the trimmed name, the within-batch
duplicate check also consults the trimmed names (two entries whose names
trim to the same string are reported in the duplicates line, which lists
the trimmed name), and on success the returned pairs carry the trimmed
names in input order, one per entry, the empty batch succeeding with the
empty list. -/
theorem createRoomPairs_trim_spec (rooms : List (String × String × String))
    (s : List String) :
    (createRoomPairs [] s = .ok [])
    ∧ (∀ pairs, createRoomPairs rooms s = .ok pairs →
        pairs = rooms.map normalizeRoom ∧ pairs.length = rooms.length)
    ∧ (∀ (i : Nat) (row : String × String × String),
        rooms[i]? = some row → strTrim row.1 = "" →
        ∃ e pre post, createRoomPairs rooms s = .error e
          ∧ e = pre ++ msgNamnSaknas (i + 1) ++ post)
    ∧ (∀ (i : Nat) (row : String × String × String),
        rooms[i]? = some row → strTrim row.1 ∈ s →
        ∃ e pre post, createRoomPairs rooms s = .error e
          ∧ e = pre ++ msgFinnsRedan (strTrim row.1) ++ post)
    ∧ (∀ (i j : Nat) (rowi rowj : String × String × String),
        i < j → rooms[i]? = some rowi → rooms[j]? = some rowj →
        strTrim rowi.1 = strTrim rowj.1 →
        strTrim rowj.1 ∈ duplicateNames rooms
          ∧ ∃ e pre post, createRoomPairs rooms s = .error e
              ∧ e = pre ++ msgUpprepas (duplicateNames rooms) ++ post) := by
  have hmem_all : ∀ (i : Nat) (row : String × String × String) (msg : String),
      rooms[i]? = some row → msg ∈ entryMessages s i row →
      msg ∈ allMessages rooms s := by
    intro i row msg hrow hmsg
    have henum : rooms.enum[i]? = some (i, row) := by
      rw [List.getElem?_enum, hrow]; rfl
    have hin : (i, row) ∈ rooms.enum := List.getElem?_mem henum
    have hlist : entryMessages s i row ∈ rooms.enum.map (fun p => entryMessages s p.1 p.2) :=
      List.mem_map_of_mem _ hin
    have hflat : msg ∈ (rooms.enum.map (fun p => entryMessages s p.1 p.2)).flatten :=
      List.mem_flatten.mpr ⟨_, hlist, hmsg⟩
    exact List.mem_append.mpr (Or.inl hflat)
  have hfail : ∀ msg, msg ∈ allMessages rooms s →
      ∃ e pre post, createRoomPairs rooms s = .error e ∧ e = pre ++ msg ++ post := by
    intro msg hmsg
    have hne : allMessages rooms s ≠ [] := List.ne_nil_of_mem hmsg
    obtain ⟨pre, post, hsplit⟩ := concatMessages_mem_split _ msg hmsg
    exact ⟨concatMessages (allMessages rooms s), pre, post,
      by rw [createRoomPairs_eq, if_neg hne], hsplit⟩
  refine ⟨by rfl, ?_, ?_, ?_, ?_⟩
  · intro pairs h
    rw [createRoomPairs_eq] at h
    split at h
    · refine ⟨(Except.ok.injEq _ _).mp h.symm, ?_⟩
      rw [(Except.ok.injEq _ _).mp h.symm, List.length_map]
    · exact absurd h (by simp)
  · intro i row hrow hblank
    refine hfail _ (hmem_all i row _ hrow ?_)
    unfold entryMessages
    exact List.mem_append.mpr (Or.inl (List.mem_append.mpr (Or.inl (List.mem_append.mpr
      (Or.inl (by rw [if_pos hblank]; exact List.mem_singleton.mpr rfl))))))
  · intro i row hrow hcoll
    refine hfail _ (hmem_all i row _ hrow ?_)
    unfold entryMessages
    exact List.mem_append.mpr (Or.inr (by rw [if_pos hcoll]; exact List.mem_singleton.mpr rfl))
  · intro i j rowi rowj hij hri hrj heq
    have hnames_i : (rooms.map (fun r => strTrim r.1))[i]? = some (strTrim rowj.1) := by
      rw [List.getElem?_map, hri]
      simp [heq]
    have hnames_j : (rooms.map (fun r => strTrim r.1))[j]? = some (strTrim rowj.1) := by
      rw [List.getElem?_map, hrj]
      rfl
    have hidx : (rooms.map (fun r => strTrim r.1)).indexOf (strTrim rowj.1) ≤ i :=
      indexOf_le_of_getElem _ i _ hnames_i
    have hdupmem : strTrim rowj.1 ∈ duplicateNames rooms := by
      unfold duplicateNames duplicatesOf
      refine List.mem_map.mpr ⟨(j, strTrim rowj.1), List.mem_filter.mpr ⟨?_, ?_⟩, rfl⟩
      · exact List.getElem?_mem
          (show (rooms.map (fun r => strTrim r.1)).enum[j]? = some (j, strTrim rowj.1) by
            rw [List.getElem?_enum, hnames_j]
            rfl)
      · exact decide_eq_true
          (show (rooms.map (fun r => strTrim r.1)).indexOf (strTrim rowj.1) ≠ j by omega)
    have hdup_ne : duplicateNames rooms ≠ [] := List.ne_nil_of_mem hdupmem
    have hmsgmem : msgUpprepas (duplicateNames rooms) ∈ allMessages rooms s := by
      unfold allMessages
      refine List.mem_append.mpr (Or.inr ?_)
      rw [if_neg hdup_ne]
      exact List.mem_singleton.mpr rfl
    exact ⟨hdupmem, hfail _ hmsgmem⟩

/-- Witness for C9: the empty batch succeeds, an accepted batch returns the
trimmed names in input order, and the raw names " A" and "A" — distinct
before trimming — are caught by the within-batch duplicate check on their
common trimmed name. -/
theorem createRoomPairs_trim_spec_witness :
    createRoomPairs [] ["X"] = .ok []
    ∧ [("A", "T (avancerad)")] = [("A", "T", "Avancerad")].map normalizeRoom
    ∧ [("A", "T (avancerad)")].length = [("A", "T", "Avancerad")].length
    ∧ strTrim "A" ∈ duplicateNames [(" A", "T1", "Avancerad"), ("A", "T2", "Avancerad")] :=
  ⟨(createRoomPairs_trim_spec [] ["X"]).1,
   ((createRoomPairs_trim_spec [("A", "T", "Avancerad")] []).2.1
      [("A", "T (avancerad)")] rfl).1,
   ((createRoomPairs_trim_spec [("A", "T", "Avancerad")] []).2.1
      [("A", "T (avancerad)")] rfl).2,
   ((createRoomPairs_trim_spec [(" A", "T1", "Avancerad"), ("A", "T2", "Avancerad")]
      []).2.2.2.2 0 1 (" A", "T1", "Avancerad") ("A", "T2", "Avancerad")
      (by omega) rfl rfl rfl).1⟩

-- ############################################################################
-- C6: AddRooms has zero side effects when validation fails
-- ############################################################################

/-- C6: if validating the non-blank input rows fails, `addNewRooms` leaves
the whole spreadsheet untouched — no sheet is created, no dashboard row is
inserted or written, and the add-input range is not cleared. -/
theorem addNewRooms_validation_failure_no_mutation (gid : String → Option Nat)
    (st : SpreadsheetModel) (e : String)
    (h : createRoomPairs (st.addRoomsInput.filter (fun r => r.1 ++ r.2.1 ++ r.2.2 ≠ ""))
        st.sheetNames = .error e) :
    addNewRooms gid st = st := by
  simp only [addNewRooms]
  rw [h]

/-- Witness for C6: a batch with a blank room name fails validation and
`addNewRooms` is the identity on the state. -/
theorem addNewRooms_validation_failure_no_mutation_witness :
    createRoomPairs (addFailState.addRoomsInput.filter
        (fun r => r.1 ++ r.2.1 ++ r.2.2 ≠ "")) addFailState.sheetNames
      = .error "Namn saknas till rum 1\n"
    ∧ addNewRooms (fun _ => none) addFailState = addFailState :=
  ⟨rfl, addNewRooms_validation_failure_no_mutation (fun _ => none) addFailState
      "Namn saknas till rum 1\n" rfl⟩

-- ############################################################################
-- C7: RenameRooms is all-or-nothing at the batch boundary
-- ############################################################################

/-- C7: if the operator cancels at any prompt while new names are being
collected (`requestNewRoomNames` returns `null`), `renameRooms` performs no
mutation at all: no sheet is renamed, no dashboard cell changes and the
selection table stays checked — even when earlier rooms of the same batch
had already been accepted. -/
theorem renameRooms_cancel_no_mutation (responses : List PromptResponse)
    (st : SpreadsheetModel)
    (h : requestNewRoomNames responses (getSelectedRooms st.configRooms)
        st.sheetNames = none) :
    renameRooms responses st = st := by
  simp only [renameRooms]
  by_cases hsel : (getSelectedRooms st.configRooms).length = 0
  · rw [if_pos hsel]
  · rw [if_neg hsel, h]

/-- Witness for C7: three rooms selected, the first rename accepted, then a
cancel on the second prompt — the whole state is unchanged. -/
theorem renameRooms_cancel_no_mutation_witness :
    requestNewRoomNames [.ok "New1", .cancelled]
        (getSelectedRooms renameCancelState.configRooms)
        renameCancelState.sheetNames = none
    ∧ renameRooms [.ok "New1", .cancelled] renameCancelState = renameCancelState :=
  ⟨rfl, renameRooms_cancel_no_mutation [.ok "New1", .cancelled] renameCancelState rfl⟩

-- ############################################################################
-- C10: proposed names are checked against the pre-captured sheet-name set
-- ############################################################################

theorem mapSet_forall {P : String × String → Prop} (m : List (String × String))
    (k v : String) (hm : ∀ p ∈ m, P p) (hkv : P (k, v)) :
    ∀ p ∈ mapSet m k v, P p := by
  intro p hp
  unfold mapSet at hp
  split at hp
  · rw [List.mem_map] at hp
    obtain ⟨q, hq, rfl⟩ := hp
    by_cases hk : q.1 = k
    · rw [if_pos hk, hk]
      exact hkv
    · rw [if_neg hk]
      exact hm q hq
  · rcases List.mem_append.mp hp with hp | hp
    · exact hm p hp
    · rw [List.mem_singleton] at hp
      subst hp
      exact hkv

/-- Invariant of the prompt loop: every accepted rename value avoids the
captured sheet-name set, and every key satisfies any property `K` holding
for the accumulator's keys and the remaining room names. -/
theorem requestLoop_values (S : List String) (K : String → Prop) :
    ∀ (responses : List PromptResponse) (names : List String)
      (acc m : List (String × String)),
      requestLoop responses names S acc = some m →
      (∀ p ∈ acc, p.2 ∉ S ∧ K p.1) → (∀ x ∈ names, K x) →
      ∀ p ∈ m, p.2 ∉ S ∧ K p.1 := by
  intro responses
  induction responses with
  | nil =>
    intro names acc m h hacc _
    cases names with
    | nil =>
      injection h with h
      subst h
      exact hacc
    | cons n rest => exact absurd h (by simp [requestLoop])
  | cons r rest ih =>
    intro names acc m h hacc hnames
    cases names with
    | nil =>
      injection h with h
      subst h
      exact hacc
    | cons oldName oldRest =>
      cases r with
      | cancelled => exact absurd h (by simp [requestLoop])
      | ok text =>
        simp only [requestLoop] at h
        split_ifs at h with h1 h2 h3
        · exact ih _ acc m h hacc hnames
        · exact ih _ acc m h hacc hnames
        · exact ih _ acc m h hacc hnames
        · refine ih _ _ m h ?_ (fun x hx => hnames x (List.mem_cons_of_mem _ hx))
          exact mapSet_forall acc oldName (strTrim text) hacc
            ⟨h2, hnames oldName (List.mem_cons_self _ _)⟩

/-- C10: during the interactive rename loop, a proposed name equal to any
currently existing sheet name is rejected and the same room is re-prompted
with the map unchanged; consequently every accepted rename map only holds
new names outside the pre-captured sheet-name set, so (when the selected
rooms are existing sheets) no room is ever mapped to its own current name
or to the old name of another selected room. -/
theorem requestNewRoomNames_rejects_existing :
    (∀ (rest : List PromptResponse) (oldName : String) (oldRest sheetNames : List String)
        (m : List (String × String)) (text : String),
      strTrim text ∈ sheetNames →
      requestLoop (.ok text :: rest) (oldName :: oldRest) sheetNames m
        = requestLoop rest (oldName :: oldRest) sheetNames m)
    ∧ (∀ (responses : List PromptResponse) (oldRoomNames sheetNames : List String)
        (m : List (String × String)),
      requestNewRoomNames responses oldRoomNames sheetNames = some m →
      ∀ p ∈ m, p.2 ∉ sheetNames
        ∧ ((∀ x ∈ oldRoomNames, x ∈ sheetNames) →
            p.2 ∉ oldRoomNames ∧ p.2 ≠ p.1)) := by
  constructor
  · intro rest oldName oldRest sheetNames m text hmem
    simp only [requestLoop]
    split_ifs with h1 <;> rfl
  · intro responses oldRoomNames sheetNames m h p hp
    have hmain := requestLoop_values sheetNames (· ∈ oldRoomNames) responses
      oldRoomNames [] m h (by simp) (fun x hx => hx) p hp
    refine ⟨hmain.1, fun hsub => ⟨?_, ?_⟩⟩
    · intro hcontra
      exact hmain.1 (hsub _ hcontra)
    · intro hcontra
      apply hmain.1
      rw [hcontra]
      exact hsub p.1 hmain.2

/-- Witness for C10: with sheets Kitchen and Bath, proposing "Kitchen" for
the room Kitchen is rejected (same loop state), and the accepted map
`{Kitchen ↦ Den}` maps to a name outside the sheet set and distinct from
the old name. -/
theorem requestNewRoomNames_rejects_existing_witness :
    requestLoop [.ok "Kitchen", .ok "Den"] ["Kitchen"] ["Kitchen", "Bath"] []
        = requestLoop [.ok "Den"] ["Kitchen"] ["Kitchen", "Bath"] []
    ∧ ("Den" ∉ (["Kitchen", "Bath"] : List String) ∧ "Den" ≠ "Kitchen") := by
  constructor
  · exact requestNewRoomNames_rejects_existing.1 [.ok "Den"] "Kitchen" []
      ["Kitchen", "Bath"] [] "Kitchen" (by decide)
  · have h := requestNewRoomNames_rejects_existing.2 [.ok "Kitchen", .ok "Den"]
      ["Kitchen"] ["Kitchen", "Bath"] [("Kitchen", "Den")] rfl
      ("Kitchen", "Den") (List.mem_singleton.mpr rfl)
    exact ⟨h.1, (h.2 (by decide)).2⟩

/-- Witness for C8: the duplicates line itself, extracted from the
theorem. -/
theorem createRoomPairs_duplicate_reporting_witness :
    createRoomPairs [("A", "T1", "k1"), ("A", "T2", "k1")] []
      = .error "Rumnamn upprepas: A\n" :=
  createRoomPairs_duplicate_reporting.1
